import Mathlib

/-!
Verification development for the OpenDossier research pipeline
(`src/App.vue`).  The core under study is:

* the stream demultiplexer `streamAiResponse` (lines 195-275), which cuts a
  stream of concatenated JSON objects into single objects by brace counting,
  extracts content deltas and publishes the growing assistant message;
* the query optimizer `optimizeQuery` (lines 84-107);
* the evidence-gathering phase of `handleInitialSubmit` (lines 109-171).

JavaScript strings are modelled as `List Char`; the host runtime's
`JSON.parse` together with the optional-chaining field accesses is modelled
as an abstract function `parse : List Char → Option StreamObj` that the
theorems quantify over, since `JSON.parse` is a browser primitive outside
the repository.  All functions of the embedding are executable.
-/

namespace OpenDossier

/-- One step of the in-string tracking of the manual boundary scanner
(App.vue line 234): `if (char === '"' && (i === 0 || buffer[i-1] !== '\\'))
inString = !inString`.  `prev` is `buffer[i-1]` (`none` when `i = 0`). -/
def scanStep (prev : Option Char) (c : Char) (inString : Bool) : Bool :=
  if c = '"' ∧ prev ≠ some '\\' then !inString else inString

/-- The `for` loop of App.vue lines 232-247: scan the buffer left to right,
toggling `inString` by `scanStep`, incrementing `openBraces` on `{` and
decrementing on `}` outside strings; the first position where the depth
returns to zero after a `}` yields `objectEndIndex = i + 1`. -/
def findObjectEndAux : List Char → Option Char → Bool → Int → Nat → Option Nat
  | [], _, _, _, _ => none
  | c :: rest, prev, inString, openBraces, i =>
    let s := scanStep prev c inString
    if s = false ∧ c = '{' then
      findObjectEndAux rest (some c) s (openBraces + 1) (i + 1)
    else if s = false ∧ c = '}' then
      if openBraces - 1 = 0 then some (i + 1)
      else findObjectEndAux rest (some c) s (openBraces - 1) (i + 1)
    else
      findObjectEndAux rest (some c) s openBraces (i + 1)

/-- `objectEndIndex` computed for a whole buffer: the scanner starts at
`i = 0` with no previous character, outside any string, at brace depth 0.
`none` models `objectEndIndex === -1` (no complete object found). -/
def findObjectEnd (buffer : List Char) : Option Nat :=
  findObjectEndAux buffer none false 0 0

/-- The `inString` flag left after scanning a whole buffer with the same
`scanStep` rule (used to exhibit where the scanner believes it still is). -/
def scanInString : List Char → Option Char → Bool → Bool
  | [], _, s => s
  | c :: rest, prev, s => scanInString rest (some c) (scanStep prev c s)

/-- `delta` field of a streamed choice: `{ delta: { content? } }`. -/
structure StreamDelta where
  content : Option (List Char)
deriving DecidableEq, Repr

/-- One element of `choices` in a streamed object:
`{ delta?: { content? }, finish_reason?: string }`. -/
structure StreamChoice where
  delta : Option StreamDelta
  finish_reason : Option (List Char)
deriving DecidableEq, Repr

/-- A parsed stream object `{ choices?: [...] }` as produced by
`JSON.parse` plus the optional-chaining accesses in App.vue lines 257-262. -/
structure StreamObj where
  choices : Option (List StreamChoice)
deriving DecidableEq, Repr

/-- `parsed.choices?.[0]` . -/
def firstChoice (o : StreamObj) : Option StreamChoice :=
  o.choices.bind List.head?

/-- `parsed.choices?.[0]?.delta?.content || ''` (line 257): the delta text
of the first choice, defaulting to the empty string when any link of the
chain is absent (`||` also maps an empty string to an empty string). -/
def deltaContentOf (o : StreamObj) : List Char :=
  (((firstChoice o).bind (·.delta)).bind (·.content)).getD []

/-- `parsed.choices?.[0]?.finish_reason === 'stop'` (line 262). -/
def isStop (o : StreamObj) : Bool :=
  ((firstChoice o).bind (·.finish_reason)) = some ("stop".data)

/-- Result of running the inner `while (buffer.length > 0)` extraction loop
(App.vue lines 225-268) until no complete object remains or a stop object
is met: the accumulated `assistantResponse`, the unconsumed buffer, whether
the `return` on `finish_reason === 'stop'` fired, and the successive values
assigned to `messages[lastMessageIndex].content` during the loop. -/
structure DrainResult where
  content : List Char
  buffer : List Char
  stopped : Bool
  published : List (List Char)
deriving DecidableEq, Repr

/-- Fuel-indexed version of the inner extraction loop.  Each iteration
removes `objectEndIndex ≥ 1` characters from the buffer, so a fuel of
`buffer.length` is always sufficient (`drainBufferFuel_congr` below);
the fuel only makes the recursion structural. -/
def drainBufferFuel (parse : List Char → Option StreamObj) :
    Nat → List Char → List Char → DrainResult
  | 0, buffer, content => ⟨content, buffer, false, []⟩
  | fuel + 1, buffer, content =>
    match findObjectEnd buffer with
    | none => ⟨content, buffer, false, []⟩
    | some e =>
      match parse (buffer.take e) with
      | none => drainBufferFuel parse fuel (buffer.drop e) content
      | some obj =>
        if isStop obj then
          ⟨content ++ deltaContentOf obj, buffer.drop e, true,
            [content ++ deltaContentOf obj]⟩
        else
          let r := drainBufferFuel parse fuel (buffer.drop e)
            (content ++ deltaContentOf obj)
          ⟨r.content, r.buffer, r.stopped,
            (content ++ deltaContentOf obj) :: r.published⟩

/-- The inner extraction loop of App.vue lines 225-268: repeatedly find the
first complete object boundary, slice it off, parse it, append its delta to
the accumulated content and publish, until no boundary is found (`break`)
or a stop object fires the `return`.  A parse failure (line 265-267) only
logs a warning and continues with the rest of the buffer. -/
def drainBuffer (parse : List Char → Option StreamObj)
    (buffer content : List Char) : DrainResult :=
  drainBufferFuel parse buffer.length buffer content

/-- The catch block of App.vue line 271 appends
`"\n\n**An error occurred:**\n\n" + e.message` to the message content. -/
def errorNote (m : List Char) : List Char :=
  "\n\n**An error occurred:**\n\n".data ++ m

/-- Outcome of one whole `streamAiResponse` call: final content of the
assistant message, the successive values published to it, and whether the
stop `return` (rather than stream end or error) terminated processing. -/
structure StreamRun where
  content : List Char
  published : List (List Char)
  stopped : Bool
deriving DecidableEq, Repr

/-- The outer `while (true) { read(); ... }` loop of App.vue lines 216-269:
each delivered chunk is appended to the buffer and the buffer is drained;
a stop object returns immediately, stream end (`done`) falls out of the
loop, and `err = some m` models `reader.read()` (or the initial response)
failing with message `m` after the listed chunks were delivered, which the
catch block turns into an error note appended to the message content. -/
def runStreamAux (parse : List Char → Option StreamObj) :
    List (List Char) → List Char → List Char → Option (List Char) → StreamRun
  | [], _, content, none => ⟨content, [], false⟩
  | [], _, content, some m =>
    ⟨content ++ errorNote m, [content ++ errorNote m], false⟩
  | chunk :: rest, buffer, content, err =>
    let r := drainBuffer parse (buffer ++ chunk) content
    if r.stopped then ⟨r.content, r.published, true⟩
    else
      let s := runStreamAux parse rest r.buffer r.content err
      ⟨s.content, r.published ++ s.published, s.stopped⟩

/-- `streamAiResponse` (App.vue lines 195-275) as observed through the
assistant message it mutates: starts from an empty buffer and the freshly
pushed empty assistant message, feeds the delivered chunks through the
demultiplexer, and optionally ends in a transport error. -/
def streamAiResponse (parse : List Char → Option StreamObj)
    (chunks : List (List Char)) (err : Option (List Char)) : StreamRun :=
  runStreamAux parse chunks [] [] err

/-! ### Query optimizer (App.vue lines 84-107) -/

/-- `message` field of a completion choice. -/
structure CompletionMessage where
  content : Option (List Char)
deriving DecidableEq, Repr

/-- One element of `choices` in a non-streaming completion response. -/
structure Completion where
  message : Option CompletionMessage
deriving DecidableEq, Repr

/-- Outcome of the `robustFetch` call inside `optimizeQuery`: either the
fetch threw (network error or non-ok status), or it resolved to a response
whose `choices` field may be absent. -/
inductive OptimizerResponse where
  | failure
  | success (choices : Option (List Completion))
deriving DecidableEq, Repr

/-- `response?.choices?.[0]?.message?.content` . -/
def extractedContent : Option (List Completion) → Option (List Char)
  | none => none
  | some cs => (cs.head?.bind (·.message)).bind (·.content)

/-- JavaScript `String.prototype.trim`: strip whitespace from both ends. -/
def jsTrim (s : List Char) : List Char :=
  ((s.dropWhile Char.isWhitespace).reverse.dropWhile Char.isWhitespace).reverse

/-- Characters matched by the regex `/["']/` (a double or single quote). -/
def isQuoteChar (c : Char) : Bool :=
  c = '"' || c = Char.ofNat 39

/-- `optimized.replace(/["']/g, '')` (line 102): delete every double or
single quote anywhere in the text. -/
def stripQuotes (s : List Char) : List Char :=
  s.filter (fun c => !(isQuoteChar c))

/-- `optimizeQuery` (App.vue lines 84-107): extract
`response?.choices?.[0]?.message?.content?.trim()`; if the fetch failed or
the extracted text is absent or trims to empty, return the original query;
otherwise return the trimmed text with all quotes removed. -/
def optimizeQuery (query : List Char) : OptimizerResponse → List Char
  | .failure => query
  | .success choices =>
    match extractedContent choices with
    | none => query
    | some content =>
      let optimized := jsTrim content
      if optimized = [] then query else stripQuotes optimized

/-- Modelled from the spec claim C3 ("trims only the surrounding quote
characters of that text, leaving interior quote characters intact"): remove
quote characters from both ends only.  Stated for comparison with the
source's `stripQuotes`; the source is the authority. -/
def trimSurroundingQuotes (s : List Char) : List Char :=
  ((s.dropWhile (fun c => isQuoteChar c)).reverse.dropWhile
    (fun c => isQuoteChar c)).reverse

/-! ### Evidence gatherer (App.vue lines 109-171) -/

/-- One search result `{ title, url }` kept by the pipeline. -/
structure Source where
  title : List Char
  url : List Char
deriving DecidableEq, Repr

/-- The fields of a fulfilled reader response that line 145 inspects:
`result.value?.data?.content` and `result.value?.content`. -/
structure ReadValue where
  dataContent : Option (List Char)
  content : Option (List Char)
deriving DecidableEq, Repr

/-- One settled element of `Promise.allSettled(readerPromises)`:
fulfilled with a value (`none` models a falsy resolved value such as an
empty text body, which line 144 skips), or rejected. -/
inductive ReadOutcome where
  | fulfilled (v : Option ReadValue)
  | rejected
deriving DecidableEq, Repr

/-- JavaScript `a || b` on strings: `b` when `a` is empty, else `a`. -/
def jsOr (a b : List Char) : List Char :=
  if a = [] then b else a

/-- `result.value?.data?.content || result.value?.content || ''`
(line 145). -/
def readContent (v : ReadValue) : List Char :=
  jsOr (v.dataContent.getD []) (v.content.getD [])

/-- The usable content of one settled read: empty for a rejected read, a
falsy value, or a value with no non-empty content field. -/
def usableContent : ReadOutcome → List Char
  | .fulfilled (some v) => readContent v
  | .fulfilled none => []
  | .rejected => []

/-- The evidence block appended for source `index` (0-based) at line 148:
`--- SOURCE [${index+1}] ---\nTitle: ${title}\nURL: ${url}\n\n${content}\n\n`. -/
def sourceBlock (index : Nat) (title url content : List Char) : List Char :=
  "--- SOURCE [".data ++ (Nat.repr (index + 1)).data ++ "] ---\nTitle: ".data
    ++ title ++ "\nURL: ".data ++ url ++ "\n\n".data ++ content ++ "\n\n".data

/-- The `readerResults.forEach` fold of lines 143-153, starting at 0-based
index `i`: build `combinedContext` and count `successfulReads`. -/
def combineReads : Nat → List (Source × ReadOutcome) → List Char × Nat
  | _, [] => ([], 0)
  | i, (s, o) :: rest =>
    let r := combineReads (i + 1) rest
    match o with
    | .fulfilled (some v) =>
      let c := readContent v
      if c = [] then r
      else (sourceBlock i s.title s.url c ++ r.1, r.2 + 1)
    | .fulfilled none => r
    | .rejected => r

/-- Shape of `searchResponse?.data` as tested on line 127: absent or falsy,
present but not an array, or an array of results. -/
inductive SearchData where
  | missing
  | notArray
  | arr (xs : List Source)
deriving Repr

/-- Message of the error thrown at line 128 (`NoSourcesError`). -/
def noSourcesMsg : List Char :=
  "Could not find any relevant sources. Try rephrasing your query.".data

/-- Message of the error thrown at line 156 (`NoReadableContentError`). -/
def noReadableMsg : List Char :=
  ("Found sources, but was unable to read their content. " ++
    "They may be inaccessible or in an unsupported format.").data

/-- `JINA_READER_API` (line 7). -/
def JINA_READER_API : List Char := "https://r.jina.ai/".data

/-- Terminal outcome of the evidence-gathering phase: an error message, or
the combined evidence text handed to synthesis. -/
inductive GatherOutcome where
  | failure (message : List Char)
  | success (combinedContext : List Char)
deriving DecidableEq, Repr

/-- The gathering phase paired with the reader requests it issued. -/
structure GatherResult where
  requests : List (List Char)
  outcome : GatherOutcome
deriving DecidableEq, Repr

/-- The evidence-gathering phase of `handleInitialSubmit` (lines 127-157):
validate the search response, take the first 5 results, issue one reader
request per kept source (recorded in `requests`), fold the settled reads
into the combined context, and fail when nothing was readable.  `reads`
lists the settled outcome of each issued request, in order. -/
def gatherPhase (d : SearchData) (reads : List ReadOutcome) : GatherResult :=
  match d with
  | .missing => ⟨[], .failure noSourcesMsg⟩
  | .notArray => ⟨[], .failure noSourcesMsg⟩
  | .arr xs =>
    if xs.length = 0 then ⟨[], .failure noSourcesMsg⟩
    else
      let topSources := xs.take 5
      let requests := topSources.map (fun s => JINA_READER_API ++ s.url)
      let res := combineReads 0 (topSources.zip reads)
      if res.2 = 0 then ⟨requests, .failure noReadableMsg⟩
      else ⟨requests, .success res.1⟩

/-! ### Concrete instances used by witnesses -/

/-- A stream object whose first choice carries the delta "done" and the
finish reason "stop". -/
def stopObj : StreamObj :=
  ⟨some [⟨some ⟨some ("done".data)⟩, some ("stop".data)⟩]⟩

/-- A parse function recognising exactly the two-character buffer "{}" as
`stopObj`. -/
def stopParse : List Char → Option StreamObj :=
  fun s => if s = ['{', '}'] then some stopObj else none

/-- A parse function that fails on every candidate object. -/
def rejectAll : List Char → Option StreamObj := fun _ => none

/-- The buffer holding the single well-formed JSON object
`{"a":"b\\"}` (a string value ending in an escaped backslash, so the
two characters before the closing quote are backslash backslash). -/
def escapeCexBuf : List Char :=
  ['{', '"', 'a', '"', ':', '"', 'b', '\\', '\\', '"', '}']

/-! ### Scanner lemmas -/

/-- The boundary found in a buffer is unchanged by appending more text:
the scan inspects only the characters up to the boundary. -/
lemma findObjectEndAux_append (S : List Char) :
    ∀ (L : List Char) (prev : Option Char) (s : Bool) (b : Int) (i e : Nat),
      findObjectEndAux L prev s b i = some e →
      findObjectEndAux (L ++ S) prev s b i = some e := by
  intro L
  induction L with
  | nil => intro prev s b i e h; simp [findObjectEndAux] at h
  | cons c rest ih =>
    intro prev s b i e h
    rw [List.cons_append]
    simp only [findObjectEndAux] at h ⊢
    split_ifs at h ⊢ <;>
      first
        | exact h
        | exact ih _ _ _ _ _ h

/-- A reported boundary lies strictly beyond the start index and within
the scanned buffer. -/
lemma findObjectEndAux_bounds :
    ∀ (L : List Char) (prev : Option Char) (s : Bool) (b : Int) (i e : Nat),
      findObjectEndAux L prev s b i = some e → i < e ∧ e ≤ i + L.length := by
  intro L
  induction L with
  | nil => intro prev s b i e h; simp [findObjectEndAux] at h
  | cons c rest ih =>
    intro prev s b i e h
    simp only [findObjectEndAux] at h
    split_ifs at h <;>
      first
        | (simp only [Option.some.injEq] at h; subst h
           simp only [List.length_cons]; omega)
        | (have hh := ih _ _ _ _ _ h
           simp only [List.length_cons]; omega)

lemma findObjectEnd_append (B S : List Char) (e : Nat)
    (h : findObjectEnd B = some e) : findObjectEnd (B ++ S) = some e :=
  findObjectEndAux_append S B none false 0 0 e h

lemma findObjectEnd_bounds (B : List Char) (e : Nat)
    (h : findObjectEnd B = some e) : 0 < e ∧ e ≤ B.length := by
  have := findObjectEndAux_bounds B none false 0 0 e h
  simp only [List.length_cons] at this
  omega

/-! ### Drain-loop stepping lemmas -/

lemma drainBufferFuel_none (parse : List Char → Option StreamObj)
    (n : Nat) (buffer content : List Char) (h : findObjectEnd buffer = none) :
    drainBufferFuel parse n buffer content = ⟨content, buffer, false, []⟩ := by
  cases n <;> simp [drainBufferFuel, h]

lemma drainBufferFuel_parseFail (parse : List Char → Option StreamObj)
    (n : Nat) (buffer content : List Char) (e : Nat)
    (h : findObjectEnd buffer = some e) (hp : parse (buffer.take e) = none) :
    drainBufferFuel parse (n + 1) buffer content =
      drainBufferFuel parse n (buffer.drop e) content := by
  simp [drainBufferFuel, h, hp]

lemma drainBufferFuel_stop (parse : List Char → Option StreamObj)
    (n : Nat) (buffer content : List Char) (e : Nat) (obj : StreamObj)
    (h : findObjectEnd buffer = some e) (hp : parse (buffer.take e) = some obj)
    (hs : isStop obj = true) :
    drainBufferFuel parse (n + 1) buffer content =
      ⟨content ++ deltaContentOf obj, buffer.drop e, true,
        [content ++ deltaContentOf obj]⟩ := by
  simp [drainBufferFuel, h, hp, hs]

lemma drainBufferFuel_cont (parse : List Char → Option StreamObj)
    (n : Nat) (buffer content : List Char) (e : Nat) (obj : StreamObj)
    (h : findObjectEnd buffer = some e) (hp : parse (buffer.take e) = some obj)
    (hs : isStop obj = false) :
    drainBufferFuel parse (n + 1) buffer content =
      ⟨(drainBufferFuel parse n (buffer.drop e)
          (content ++ deltaContentOf obj)).content,
       (drainBufferFuel parse n (buffer.drop e)
          (content ++ deltaContentOf obj)).buffer,
       (drainBufferFuel parse n (buffer.drop e)
          (content ++ deltaContentOf obj)).stopped,
       (content ++ deltaContentOf obj) ::
         (drainBufferFuel parse n (buffer.drop e)
            (content ++ deltaContentOf obj)).published⟩ := by
  simp [drainBufferFuel, h, hp, hs]

/-- Any fuel at least the buffer length computes the same drain result:
each extraction removes at least one character. -/
lemma drainBufferFuel_congr (parse : List Char → Option StreamObj) :
    ∀ (n : Nat) (buffer : List Char), buffer.length ≤ n →
      ∀ (m : Nat), buffer.length ≤ m → ∀ content,
        drainBufferFuel parse n buffer content =
          drainBufferFuel parse m buffer content := by
  intro n
  induction n with
  | zero =>
    intro buffer hb m hm content
    have hB : buffer = [] := List.eq_nil_of_length_eq_zero (Nat.le_zero.mp hb)
    subst hB
    rw [drainBufferFuel_none parse 0 _ _ (by rfl),
      drainBufferFuel_none parse m _ _ (by rfl)]
  | succ n ih =>
    intro buffer hb m hm content
    cases m with
    | zero =>
      have hB : buffer = [] := List.eq_nil_of_length_eq_zero (Nat.le_zero.mp hm)
      subst hB
      rw [drainBufferFuel_none parse _ _ _ (by rfl),
        drainBufferFuel_none parse 0 _ _ (by rfl)]
    | succ m =>
      cases he : findObjectEnd buffer with
      | none => rw [drainBufferFuel_none parse _ _ _ he,
          drainBufferFuel_none parse _ _ _ he]
      | some e =>
        have hbd := findObjectEnd_bounds buffer e he
        have hdl : (buffer.drop e).length ≤ n := by
          simp only [List.length_drop]; omega
        have hdm : (buffer.drop e).length ≤ m := by
          simp only [List.length_drop]; omega
        cases hp : parse (buffer.take e) with
        | none =>
          rw [drainBufferFuel_parseFail parse _ _ _ _ he hp,
            drainBufferFuel_parseFail parse _ _ _ _ he hp]
          exact ih _ hdl m hdm content
        | some obj =>
          cases hs : isStop obj with
          | true =>
            rw [drainBufferFuel_stop parse _ _ _ _ _ he hp hs,
              drainBufferFuel_stop parse _ _ _ _ _ he hp hs]
          | false =>
            rw [drainBufferFuel_cont parse _ _ _ _ _ he hp hs,
              drainBufferFuel_cont parse _ _ _ _ _ he hp hs,
              ih _ hdl m hdm]

lemma drainBuffer_none (parse : List Char → Option StreamObj)
    (buffer content : List Char) (h : findObjectEnd buffer = none) :
    drainBuffer parse buffer content = ⟨content, buffer, false, []⟩ :=
  drainBufferFuel_none parse _ _ _ h

lemma drainBuffer_parseFail (parse : List Char → Option StreamObj)
    (buffer content : List Char) (e : Nat)
    (h : findObjectEnd buffer = some e) (hp : parse (buffer.take e) = none) :
    drainBuffer parse buffer content =
      drainBuffer parse (buffer.drop e) content := by
  have hbd := findObjectEnd_bounds buffer e h
  unfold drainBuffer
  cases hl : buffer.length with
  | zero => omega
  | succ k =>
    rw [drainBufferFuel_parseFail parse _ _ _ _ h hp]
    exact drainBufferFuel_congr parse k _ (by simp; omega) _ (le_refl _) content

lemma drainBuffer_stop (parse : List Char → Option StreamObj)
    (buffer content : List Char) (e : Nat) (obj : StreamObj)
    (h : findObjectEnd buffer = some e) (hp : parse (buffer.take e) = some obj)
    (hs : isStop obj = true) :
    drainBuffer parse buffer content =
      ⟨content ++ deltaContentOf obj, buffer.drop e, true,
        [content ++ deltaContentOf obj]⟩ := by
  have hbd := findObjectEnd_bounds buffer e h
  unfold drainBuffer
  cases hl : buffer.length with
  | zero => omega
  | succ k => exact drainBufferFuel_stop parse _ _ _ _ _ h hp hs

lemma drainBuffer_cont (parse : List Char → Option StreamObj)
    (buffer content : List Char) (e : Nat) (obj : StreamObj)
    (h : findObjectEnd buffer = some e) (hp : parse (buffer.take e) = some obj)
    (hs : isStop obj = false) :
    drainBuffer parse buffer content =
      ⟨(drainBuffer parse (buffer.drop e)
          (content ++ deltaContentOf obj)).content,
       (drainBuffer parse (buffer.drop e)
          (content ++ deltaContentOf obj)).buffer,
       (drainBuffer parse (buffer.drop e)
          (content ++ deltaContentOf obj)).stopped,
       (content ++ deltaContentOf obj) ::
         (drainBuffer parse (buffer.drop e)
            (content ++ deltaContentOf obj)).published⟩ := by
  have hbd := findObjectEnd_bounds buffer e h
  unfold drainBuffer
  cases hl : buffer.length with
  | zero => omega
  | succ k =>
    rw [drainBufferFuel_cont parse _ _ _ _ _ h hp hs,
      drainBufferFuel_congr parse k _ (by simp; omega) _ (le_refl _)]

/-! ### Confluence of draining under buffer extension -/

/-- Draining `B ++ S` factors through draining `B`: a stopped drain of `B`
stops identically with the extra suffix appended to the leftover buffer,
and an exhausted drain of `B` continues by draining its leftover buffer
extended with `S`.  This is the heart of chunk-boundary invariance: the
scanner never commits to an object boundary that later input could move. -/
lemma drainBuffer_append_core (parse : List Char → Option StreamObj) :
    ∀ (n : Nat) (B : List Char), B.length ≤ n → ∀ (S ct : List Char),
      ((drainBuffer parse B ct).stopped = false →
        drainBuffer parse (B ++ S) ct =
          ⟨(drainBuffer parse ((drainBuffer parse B ct).buffer ++ S)
              (drainBuffer parse B ct).content).content,
           (drainBuffer parse ((drainBuffer parse B ct).buffer ++ S)
              (drainBuffer parse B ct).content).buffer,
           (drainBuffer parse ((drainBuffer parse B ct).buffer ++ S)
              (drainBuffer parse B ct).content).stopped,
           (drainBuffer parse B ct).published ++
             (drainBuffer parse ((drainBuffer parse B ct).buffer ++ S)
                (drainBuffer parse B ct).content).published⟩) ∧
      ((drainBuffer parse B ct).stopped = true →
        drainBuffer parse (B ++ S) ct =
          ⟨(drainBuffer parse B ct).content,
           (drainBuffer parse B ct).buffer ++ S, true,
           (drainBuffer parse B ct).published⟩) := by
  intro n
  induction n with
  | zero =>
    intro B hb S ct
    have hB : B = [] := List.eq_nil_of_length_eq_zero (Nat.le_zero.mp hb)
    subst hB
    rw [drainBuffer_none parse [] ct rfl]
    exact ⟨fun _ => by simp, fun h => by simp at h⟩
  | succ n ih =>
    intro B hb S ct
    cases he : findObjectEnd B with
    | none =>
      rw [drainBuffer_none parse B ct he]
      exact ⟨fun _ => by simp, fun h => by simp at h⟩
    | some e =>
      have hbd := findObjectEnd_bounds B e he
      have heS : findObjectEnd (B ++ S) = some e := findObjectEnd_append B S e he
      have htake : (B ++ S).take e = B.take e :=
        List.take_append_of_le_length hbd.2
      have hdrop : (B ++ S).drop e = B.drop e ++ S :=
        List.drop_append_of_le_length hbd.2
      have hdl : (B.drop e).length ≤ n := by
        simp only [List.length_drop]; omega
      cases hp : parse (B.take e) with
      | none =>
        rw [drainBuffer_parseFail parse B ct e he hp,
          drainBuffer_parseFail parse (B ++ S) ct e heS (htake ▸ hp), hdrop]
        exact ih (B.drop e) hdl S ct
      | some obj =>
        cases hs : isStop obj with
        | true =>
          rw [drainBuffer_stop parse B ct e obj he hp hs,
            drainBuffer_stop parse (B ++ S) ct e obj heS (htake ▸ hp) hs, hdrop]
          exact ⟨fun h => by simp at h, fun _ => rfl⟩
        | false =>
          rw [drainBuffer_cont parse B ct e obj he hp hs,
            drainBuffer_cont parse (B ++ S) ct e obj heS (htake ▸ hp) hs, hdrop]
          obtain ⟨ih1, ih2⟩ := ih (B.drop e) hdl S (ct ++ deltaContentOf obj)
          cases hrs : (drainBuffer parse (B.drop e)
              (ct ++ deltaContentOf obj)).stopped with
          | true =>
            refine ⟨fun h => by simp [hrs] at h, fun _ => ?_⟩
            rw [ih2 hrs]
          | false =>
            refine ⟨fun _ => ?_, fun h => by simp [hrs] at h⟩
            rw [ih1 hrs]
            simp [hrs]

/-- The instance of `drainBuffer_append_core` at exact fuel. -/
lemma drainBuffer_append (parse : List Char → Option StreamObj)
    (B S ct : List Char) :
    ((drainBuffer parse B ct).stopped = false →
      drainBuffer parse (B ++ S) ct =
        ⟨(drainBuffer parse ((drainBuffer parse B ct).buffer ++ S)
            (drainBuffer parse B ct).content).content,
         (drainBuffer parse ((drainBuffer parse B ct).buffer ++ S)
            (drainBuffer parse B ct).content).buffer,
         (drainBuffer parse ((drainBuffer parse B ct).buffer ++ S)
            (drainBuffer parse B ct).content).stopped,
         (drainBuffer parse B ct).published ++
           (drainBuffer parse ((drainBuffer parse B ct).buffer ++ S)
              (drainBuffer parse B ct).content).published⟩) ∧
    ((drainBuffer parse B ct).stopped = true →
      drainBuffer parse (B ++ S) ct =
        ⟨(drainBuffer parse B ct).content,
         (drainBuffer parse B ct).buffer ++ S, true,
         (drainBuffer parse B ct).published⟩) :=
  drainBuffer_append_core parse B.length B (le_refl _) S ct

/-! ### Chunk-boundary invariance of the whole run -/

/-- Feeding two consecutive chunks is the same as feeding their
concatenation as one chunk. -/
lemma runStreamAux_merge (parse : List Char → Option StreamObj)
    (c₁ c₂ : List Char) (rest : List (List Char)) (buffer ct : List Char)
    (err : Option (List Char)) :
    runStreamAux parse ((c₁ ++ c₂) :: rest) buffer ct err =
      runStreamAux parse (c₁ :: c₂ :: rest) buffer ct err := by
  obtain ⟨A1, A2⟩ := drainBuffer_append parse (buffer ++ c₁) c₂ ct
  simp only [runStreamAux]
  rw [← List.append_assoc]
  cases hs1 : (drainBuffer parse (buffer ++ c₁) ct).stopped with
  | true =>
    rw [A2 hs1]
    simp [hs1]
  | false =>
    rw [A1 hs1]
    simp only [hs1]
    cases hs2 : (drainBuffer parse ((drainBuffer parse (buffer ++ c₁) ct).buffer
        ++ c₂) (drainBuffer parse (buffer ++ c₁) ct).content).stopped with
    | true => simp [hs2]
    | false => simp [hs2]

/-- Feeding a non-empty chunk list is the same as feeding the single chunk
obtained by concatenating it. -/
lemma runStreamAux_flatten (parse : List Char → Option StreamObj) :
    ∀ (rest : List (List Char)) (c buffer ct : List Char)
      (err : Option (List Char)),
      runStreamAux parse (c :: rest) buffer ct err =
        runStreamAux parse [c ++ rest.flatten] buffer ct err := by
  intro rest
  induction rest with
  | nil => intro c buffer ct err; simp
  | cons c₂ rest ih =>
    intro c buffer ct err
    rw [← runStreamAux_merge parse c c₂ rest buffer ct err,
      ih (c ++ c₂) buffer ct err, List.append_assoc, ← List.flatten_cons]

/-! ### Published-content chain lemmas -/

/-- During one drain pass, the successively published contents form a
chain under the prefix order, starting from the incoming content, and the
final content is the last element of that chain. -/
lemma drainBuffer_chain (parse : List Char → Option StreamObj) :
    ∀ (n : Nat) (B : List Char), B.length ≤ n → ∀ (ct : List Char),
      List.Chain' (· <+: ·) (ct :: (drainBuffer parse B ct).published) ∧
      (ct :: (drainBuffer parse B ct).published).getLast? =
        some (drainBuffer parse B ct).content := by
  intro n
  induction n with
  | zero =>
    intro B hb ct
    have hB : B = [] := List.eq_nil_of_length_eq_zero (Nat.le_zero.mp hb)
    subst hB
    rw [drainBuffer_none parse [] ct rfl]
    exact ⟨List.chain'_singleton ct, rfl⟩
  | succ n ih =>
    intro B hb ct
    cases he : findObjectEnd B with
    | none =>
      rw [drainBuffer_none parse B ct he]
      exact ⟨List.chain'_singleton ct, rfl⟩
    | some e =>
      have hbd := findObjectEnd_bounds B e he
      have hdl : (B.drop e).length ≤ n := by
        simp only [List.length_drop]; omega
      cases hp : parse (B.take e) with
      | none =>
        rw [drainBuffer_parseFail parse B ct e he hp]
        exact ih _ hdl ct
      | some obj =>
        cases hs : isStop obj with
        | true =>
          rw [drainBuffer_stop parse B ct e obj he hp hs]
          refine ⟨List.chain'_cons.mpr
            ⟨⟨deltaContentOf obj, rfl⟩, List.chain'_singleton _⟩, rfl⟩
        | false =>
          rw [drainBuffer_cont parse B ct e obj he hp hs]
          obtain ⟨ic, il⟩ := ih _ hdl (ct ++ deltaContentOf obj)
          refine ⟨List.chain'_cons.mpr ⟨⟨deltaContentOf obj, rfl⟩, ic⟩, ?_⟩
          rw [List.getLast?_cons_cons]
          exact il

/-- Over a whole run, the successively published contents form a chain
under the prefix order, starting from the initial content, and the final
content is the last element of that chain. -/
lemma runStreamAux_chain (parse : List Char → Option StreamObj) :
    ∀ (chunks : List (List Char)) (buffer ct : List Char)
      (err : Option (List Char)),
      List.Chain' (· <+: ·)
        (ct :: (runStreamAux parse chunks buffer ct err).published) ∧
      (ct :: (runStreamAux parse chunks buffer ct err).published).getLast? =
        some (runStreamAux parse chunks buffer ct err).content := by
  intro chunks
  induction chunks with
  | nil =>
    intro buffer ct err
    cases err with
    | none => exact ⟨List.chain'_singleton ct, rfl⟩
    | some m =>
      refine ⟨List.chain'_cons.mpr
        ⟨⟨errorNote m, rfl⟩, List.chain'_singleton _⟩, rfl⟩
  | cons c rest ih =>
    intro buffer ct err
    obtain ⟨dc, dl⟩ :=
      drainBuffer_chain parse (buffer ++ c).length (buffer ++ c)
        (le_refl _) ct
    simp only [runStreamAux]
    cases hs : (drainBuffer parse (buffer ++ c) ct).stopped with
    | true => exact ⟨by simpa [hs] using dc, by simpa [hs] using dl⟩
    | false =>
      obtain ⟨ic, il⟩ := ih (drainBuffer parse (buffer ++ c) ct).buffer
        (drainBuffer parse (buffer ++ c) ct).content err
      simp only [hs, if_false, Bool.false_eq_true]
      constructor
      · have happ : (ct :: (drainBuffer parse (buffer ++ c) ct).published) ++
            (runStreamAux parse rest (drainBuffer parse (buffer ++ c) ct).buffer
              (drainBuffer parse (buffer ++ c) ct).content err).published =
            ct :: ((drainBuffer parse (buffer ++ c) ct).published ++
              (runStreamAux parse rest
                (drainBuffer parse (buffer ++ c) ct).buffer
                (drainBuffer parse (buffer ++ c) ct).content err).published) :=
          List.cons_append _ _ _
        rw [← happ]
        refine List.Chain'.append dc (List.chain'_cons'.mp ic).2 ?_
        intro x hx y hy
        rw [dl] at hx
        simp only [Option.mem_def, Option.some.injEq] at hx
        subst hx
        exact (List.chain'_cons'.mp ic).1 y hy
      · cases hsp : (runStreamAux parse rest
            (drainBuffer parse (buffer ++ c) ct).buffer
            (drainBuffer parse (buffer ++ c) ct).content err).published with
        | nil =>
          rw [hsp] at il
          simp only [List.getLast?_singleton, Option.some.injEq] at il
          simp only [List.append_nil]
          rw [dl]
          exact congrArg some il
        | cons p ps =>
          rw [hsp] at il
          rw [List.getLast?_cons_cons] at il
          have : (ct :: ((drainBuffer parse (buffer ++ c) ct).published ++
              p :: ps)).getLast? = (p :: ps).getLast? := by
            rw [show ct :: ((drainBuffer parse (buffer ++ c) ct).published ++
                p :: ps) = (ct :: (drainBuffer parse (buffer ++ c) ct).published)
                ++ p :: ps from rfl]
            exact List.getLast?_append_of_ne_nil _ (by simp)
          rw [this, il]

/-- A transport failure after the delivered chunks, when no stop object
fired, yields the clean-run content with the error note appended. -/
lemma runStreamAux_err (parse : List Char → Option StreamObj) :
    ∀ (chunks : List (List Char)) (buffer ct m : List Char),
      (runStreamAux parse chunks buffer ct (some m)).stopped = false →
      (runStreamAux parse chunks buffer ct (some m)).content =
        (runStreamAux parse chunks buffer ct none).content ++ errorNote m := by
  intro chunks
  induction chunks with
  | nil => intro buffer ct m _; rfl
  | cons c rest ih =>
    intro buffer ct m hstop
    simp only [runStreamAux] at hstop ⊢
    cases hs : (drainBuffer parse (buffer ++ c) ct).stopped with
    | true => simp [hs] at hstop
    | false =>
      simp only [hs, if_false, Bool.false_eq_true] at hstop ⊢
      exact ih _ _ m hstop

/-! ### Evidence-fold lemmas -/

/-- When every settled read is unusable (rejected, falsy, or without
non-empty content), the fold produces an empty context and a zero count,
whatever the starting index. -/
lemma combineReads_unusable :
    ∀ (pairs : List (Source × ReadOutcome)) (i : Nat),
      (∀ p ∈ pairs, usableContent p.2 = []) → combineReads i pairs = ([], 0) := by
  intro pairs
  induction pairs with
  | nil => intro i _; rfl
  | cons p rest ih =>
    intro i h
    obtain ⟨s, o⟩ := p
    have h1 : usableContent o = [] := h (s, o) (by simp)
    have h2 := ih (i + 1) (fun q hq => h q (by simp [hq]))
    cases o with
    | rejected => simp [combineReads, h2]
    | fulfilled v =>
      cases v with
      | none => simp [combineReads, h2]
      | some rv =>
        have hrv : readContent rv = [] := by simpa [usableContent] using h1
        simp [combineReads, h2, hrv]

/-! ### Claim theorems -/

/-- C1: for every parse behaviour and every way of splitting the stream
payload into chunks (in particular every split of a concatenation of
complete JSON objects, including mid-string, mid-escape or one character
at a time), feeding the chunks one by one to the demultiplexer yields the
same final accumulated assistant content as feeding the whole
concatenation as a single chunk. -/
theorem stream_chunk_invariance (parse : List Char → Option StreamObj)
    (chunks : List (List Char)) :
    (streamAiResponse parse chunks none).content =
      (streamAiResponse parse [chunks.flatten] none).content := by
  cases chunks with
  | nil => rfl
  | cons c rest =>
    show (runStreamAux parse (c :: rest) [] [] none).content =
      (runStreamAux parse [(c :: rest).flatten] [] [] none).content
    rw [List.flatten_cons, ← runStreamAux_flatten parse rest c [] [] none]

/-- C7: as soon as an extracted object parses to a first choice with
finish_reason "stop", the demultiplexer returns at once: the rest of the
buffer stays unconsumed, and any further stream chunks (and even a later
transport error) are never processed. -/
theorem stream_stop_halts (parse : List Char → Option StreamObj)
    (B : List Char) (e : Nat) (obj : StreamObj) (ct : List Char)
    (h : findObjectEnd B = some e) (hp : parse (B.take e) = some obj)
    (hs : isStop obj = true) :
    drainBuffer parse B ct =
      ⟨ct ++ deltaContentOf obj, B.drop e, true,
        [ct ++ deltaContentOf obj]⟩ ∧
    ∀ (rest : List (List Char)) (err : Option (List Char)),
      runStreamAux parse (B :: rest) [] ct err =
        ⟨ct ++ deltaContentOf obj, [ct ++ deltaContentOf obj], true⟩ := by
  have hd := drainBuffer_stop parse B ct e obj h hp hs
  refine ⟨hd, fun rest err => ?_⟩
  simp [runStreamAux, hd]

/-- C7 witness: a stop object followed by a trailing buffer byte "X" and a
trailing stream chunk "ign" is processed no further. -/
theorem stream_stop_halts_witness :
    findObjectEnd ['{', '}', 'X'] = some 2 ∧
    drainBuffer stopParse ['{', '}', 'X'] [] =
      ⟨"done".data, ['X'], true, ["done".data]⟩ ∧
    runStreamAux stopParse [['{', '}', 'X'], ['i', 'g', 'n']] [] []
        (some ("err".data)) =
      ⟨"done".data, ["done".data], true⟩ := by
  have h := stream_stop_halts stopParse ['{', '}', 'X'] 2 stopObj []
    (by decide) (by decide) (by decide)
  exact ⟨by decide, h.1, h.2 [['i', 'g', 'n']] (some ("err".data))⟩

/-- C9: when the stop object itself carries a delta content fragment, that
fragment is appended to the accumulated content and published before
processing halts. -/
theorem stream_stop_delta_published (parse : List Char → Option StreamObj)
    (B : List Char) (e : Nat) (obj : StreamObj) (ct d : List Char)
    (h : findObjectEnd B = some e) (hp : parse (B.take e) = some obj)
    (hs : isStop obj = true)
    (hd : ((firstChoice obj).bind (·.delta)).bind (·.content) = some d) :
    (drainBuffer parse B ct).content = ct ++ d ∧
    (ct ++ d) ∈ (drainBuffer parse B ct).published ∧
    (drainBuffer parse B ct).stopped = true := by
  have hδ : deltaContentOf obj = d := by simp [deltaContentOf, hd]
  rw [drainBuffer_stop parse B ct e obj h hp hs, hδ]
  exact ⟨rfl, List.mem_singleton.mpr rfl, rfl⟩

/-- C9 witness: the stop object carrying delta "done" has its delta
appended and published. -/
theorem stream_stop_delta_published_witness :
    (drainBuffer stopParse ['{', '}'] []).content = "done".data ∧
    ("done".data : List Char) ∈ (drainBuffer stopParse ['{', '}'] []).published ∧
    (drainBuffer stopParse ['{', '}'] []).stopped = true := by
  have h := stream_stop_delta_published stopParse ['{', '}'] 2 stopObj []
    ("done".data) (by decide) (by decide) (by decide) (by decide)
  simpa using h

/-- C8: every published value of the open assistant message's content has
the previously published value as a prefix (starting from the empty
content of the freshly pushed message), and a transport-level stream
failure appends an error note to the content already accumulated rather
than discarding or replacing it. -/
theorem stream_published_monotone (parse : List Char → Option StreamObj)
    (chunks : List (List Char)) (err : Option (List Char)) :
    List.Chain' (· <+: ·)
      (([] : List Char) :: (streamAiResponse parse chunks err).published) ∧
    (∀ m : List Char, err = some m →
      (streamAiResponse parse chunks err).stopped = false →
      (streamAiResponse parse chunks err).content =
        (streamAiResponse parse chunks none).content ++ errorNote m) := by
  refine ⟨(runStreamAux_chain parse chunks [] [] err).1, fun m hm hstop => ?_⟩
  subst hm
  exact runStreamAux_err parse chunks [] [] m hstop

/-- C8 witness: a stream failing with message "boom" before delivering any
chunk publishes monotonically and appends the error note to the (empty)
accumulated content. -/
theorem stream_published_monotone_witness :
    List.Chain' (· <+: ·)
      (([] : List Char) ::
        (streamAiResponse rejectAll [] (some ("boom".data))).published) ∧
    (streamAiResponse rejectAll [] (some ("boom".data))).stopped = false ∧
    (streamAiResponse rejectAll [] (some ("boom".data))).content =
      (streamAiResponse rejectAll [] none).content ++ errorNote ("boom".data) := by
  have h := stream_published_monotone rejectAll [] (some ("boom".data))
  exact ⟨h.1, rfl, h.2 ("boom".data) rfl rfl⟩

/-- C2: with 5 sources where reads 2 and 4 reject and reads 1, 3 and 5
succeed with non-empty content, the combined evidence text consists of
exactly the 3 labeled blocks for the original ordinals 1, 3 and 5 (the
0-based indices 0, 2, 4 render as labels 1, 3, 5), in that order, and the
successful-read count is 3. -/
theorem evidence_blocks (s₁ s₂ s₃ s₄ s₅ : Source) (v₁ v₃ v₅ : ReadValue)
    (h₁ : readContent v₁ ≠ []) (h₃ : readContent v₃ ≠ [])
    (h₅ : readContent v₅ ≠ []) :
    (gatherPhase (.arr [s₁, s₂, s₃, s₄, s₅])
        [.fulfilled (some v₁), .rejected, .fulfilled (some v₃), .rejected,
         .fulfilled (some v₅)]).outcome =
      .success (sourceBlock 0 s₁.title s₁.url (readContent v₁) ++
        (sourceBlock 2 s₃.title s₃.url (readContent v₃) ++
          (sourceBlock 4 s₅.title s₅.url (readContent v₅) ++ []))) ∧
    (combineReads 0
        [(s₁, .fulfilled (some v₁)), (s₂, .rejected),
         (s₃, .fulfilled (some v₃)), (s₄, .rejected),
         (s₅, .fulfilled (some v₅))]).2 = 3 := by
  constructor
  · simp [gatherPhase, combineReads, h₁, h₃, h₅]
  · simp [combineReads, h₁, h₃, h₅]

/-- C2 witness: concrete sources and contents. -/
theorem evidence_blocks_witness :
    (gatherPhase (.arr [⟨"T1".data, "U1".data⟩, ⟨"T2".data, "U2".data⟩,
        ⟨"T3".data, "U3".data⟩, ⟨"T4".data, "U4".data⟩,
        ⟨"T5".data, "U5".data⟩])
        [.fulfilled (some ⟨some ("A".data), none⟩), .rejected,
         .fulfilled (some ⟨none, some ("C".data)⟩), .rejected,
         .fulfilled (some ⟨some ("E".data), none⟩)]).outcome =
      .success (sourceBlock 0 ("T1".data) ("U1".data) ("A".data) ++
        (sourceBlock 2 ("T3".data) ("U3".data) ("C".data) ++
          (sourceBlock 4 ("T5".data) ("U5".data) ("E".data) ++ []))) := by
  have h := evidence_blocks ⟨"T1".data, "U1".data⟩ ⟨"T2".data, "U2".data⟩
    ⟨"T3".data, "U3".data⟩ ⟨"T4".data, "U4".data⟩ ⟨"T5".data, "U5".data⟩
    ⟨some ("A".data), none⟩ ⟨none, some ("C".data)⟩ ⟨some ("E".data), none⟩
    (by decide) (by decide) (by decide)
  simpa using h.1

/-- C5: whatever the settled reads would have been, a search response with
missing data, non-array data, or an empty data array terminates the run
with the NoSourcesError message and issues zero read requests. -/
theorem no_sources_terminates (reads : List ReadOutcome) :
    gatherPhase .missing reads = ⟨[], .failure noSourcesMsg⟩ ∧
    gatherPhase .notArray reads = ⟨[], .failure noSourcesMsg⟩ ∧
    gatherPhase (.arr []) reads = ⟨[], .failure noSourcesMsg⟩ :=
  ⟨rfl, rfl, rfl⟩

/-- C6: with at least one source but every read unusable (rejected, falsy,
or empty content), the run terminates with the NoReadableContentError
message, which differs from the NoSourcesError message. -/
theorem no_readable_content (xs : List Source) (reads : List ReadOutcome)
    (hxs : xs ≠ [])
    (hall : ∀ o ∈ reads, usableContent o = []) :
    (gatherPhase (.arr xs) reads).outcome = .failure noReadableMsg ∧
    noReadableMsg ≠ noSourcesMsg := by
  constructor
  · have hn : combineReads 0 ((xs.take 5).zip reads) = ([], 0) :=
      combineReads_unusable _ 0 (fun p hp => hall p.2 (List.of_mem_zip hp).2)
    simp [gatherPhase, hn, hxs]
  · decide

/-- C6 witness: one source whose single read rejects. -/
theorem no_readable_content_witness :
    (gatherPhase (.arr [⟨"t".data, "u".data⟩]) [.rejected]).outcome =
      .failure noReadableMsg ∧
    noReadableMsg ≠ noSourcesMsg := by
  have h := no_readable_content [⟨"t".data, "u".data⟩] [.rejected]
    (by decide) (by decide)
  exact h

/-- C4: if the optimization call fails, or the extracted completion text is
absent, or it trims to empty, the optimizer returns the original query
unchanged (the failure is absorbed, never propagated). -/
theorem optimizeQuery_fallback (query : List Char) :
    optimizeQuery query .failure = query ∧
    (∀ choices, extractedContent choices = none →
      optimizeQuery query (.success choices) = query) ∧
    (∀ choices content, extractedContent choices = some content →
      jsTrim content = [] → optimizeQuery query (.success choices) = query) := by
  refine ⟨rfl, fun choices h => ?_, fun choices content h ht => ?_⟩
  · simp [optimizeQuery, h]
  · simp [optimizeQuery, h, ht]

/-- C4 witness: a failed call, an empty choices list, and an
all-whitespace completion all fall back to the original query "abc". -/
theorem optimizeQuery_fallback_witness :
    optimizeQuery ("abc".data) .failure = "abc".data ∧
    optimizeQuery ("abc".data) (.success (some [])) = "abc".data ∧
    jsTrim ("  ".data) = [] ∧
    optimizeQuery ("abc".data)
      (.success (some [⟨some ⟨some ("  ".data)⟩⟩])) = "abc".data := by
  have h := optimizeQuery_fallback ("abc".data)
  exact ⟨h.1, h.2.1 (some []) (by decide),
    by decide, h.2.2 (some [⟨some ⟨some ("  ".data)⟩⟩]) ("  ".data)
      (by decide) (by decide)⟩

/-- C3 counterexample: on the completion text `say "hi" now` (no
surrounding quotes, two interior quotes) the optimizer returns
`say hi now`: the interior quote characters are removed, while the claim
(trimming only surrounding quotes) would leave the text unchanged. -/
theorem optimizeQuery_interior_quotes_cex :
    optimizeQuery ("q".data)
        (.success (some [⟨some ⟨some ("say \"hi\" now".data)⟩⟩])) =
      "say hi now".data ∧
    trimSurroundingQuotes (jsTrim ("say \"hi\" now".data)) =
      "say \"hi\" now".data ∧
    "say hi now".data ≠ "say \"hi\" now".data := by
  exact ⟨by decide, by decide, by decide⟩

/-- C3 amended: the optimizer extracts the first completion's message
content, trims surrounding whitespace, and removes every double- or
single-quote character anywhere in the text — interior quotes included —
so no quote character survives in its output. -/
theorem optimizeQuery_strips_all_quotes (query : List Char)
    (choices : Option (List Completion)) (content : List Char)
    (h : extractedContent choices = some content)
    (ht : jsTrim content ≠ []) :
    optimizeQuery query (.success choices) = stripQuotes (jsTrim content) ∧
    ∀ c ∈ optimizeQuery query (.success choices), isQuoteChar c = false := by
  have heq : optimizeQuery query (.success choices) =
      stripQuotes (jsTrim content) := by
    simp [optimizeQuery, h, ht]
  refine ⟨heq, ?_⟩
  rw [heq]
  intro c hc
  have hm := List.mem_filter.mp hc
  simpa using hm.2

/-- C3 witness: the completion text `a"b` yields `ab`. -/
theorem optimizeQuery_strips_all_quotes_witness :
    optimizeQuery ("q".data)
        (.success (some [⟨some ⟨some ("a\"b".data)⟩⟩])) =
      stripQuotes (jsTrim ("a\"b".data)) ∧
    ∀ c ∈ optimizeQuery ("q".data)
        (.success (some [⟨some ⟨some ("a\"b".data)⟩⟩])), isQuoteChar c = false :=
  optimizeQuery_strips_all_quotes ("q".data)
    (some [⟨some ⟨some ("a\"b".data)⟩⟩]) ("a\"b".data) (by decide) (by decide)

/-- C10: the scanner classifies a quote as escaped whenever the
immediately preceding character is a backslash, even when that backslash
is itself escaped (the in-string flag is left untouched in every scanner
state); consequently, on the buffer holding the single well-formed object
`{"a":"b\\"}` it stays in-string past the true closing quote and reports
no object end. -/
theorem scanner_escaped_backslash (rest : List Char) (s : Bool) (b : Int)
    (i : Nat) :
    findObjectEndAux ('"' :: rest) (some '\\') s b i =
      findObjectEndAux rest (some '"') s b (i + 1) ∧
    scanInString escapeCexBuf none false = true ∧
    findObjectEnd escapeCexBuf = none := by
  refine ⟨?_, by decide, by decide⟩
  cases s <;> rfl

end OpenDossier
